import Mathlib

set_option maxRecDepth 200000

/- Verification of the client-side source bundler feature of the two pages
   (the pybind11 interop-library page and the memory-pool page). Document
   texts are modelled as lists of characters. The four JavaScript regex
   replacements and the string replacement used for script injection are
   implemented directly, following ECMAScript semantics (greedy and lazy
   quantifiers without backtracking needs for these patterns, leftmost
   non-overlapping global replacement, and dollar substitution patterns in
   the replacement string of String.prototype.replace). Network responses
   are an oracle: the base document fetch and each manifest path fetch
   either yields a text or fails. -/

/-- The ECMAScript whitespace class backslash-s. -/
def isWs (c : Char) : Bool :=
  c = ' ' || c = '\t' || c = '\n' || c = '\r' || c.val = 11 || c.val = 12 ||
  c.val = 0xa0 || c.val = 0x1680 || (0x2000 ≤ c.val && c.val ≤ 0x200a) ||
  c.val = 0x2028 || c.val = 0x2029 || c.val = 0x202f || c.val = 0x205f ||
  c.val = 0x3000 || c.val = 0xfeff

/-- A single or double quote character, the class of the bundler regexes. -/
def isQuote (c : Char) : Bool := c = '\x27' || c = '"'

/-- Consume a literal character sequence, returning the remainder. -/
def lit : List Char → List Char → Option (List Char)
  | [], l => some l
  | _ :: _, [] => none
  | p :: ps, c :: cs => if c = p then lit ps cs else none

/-- Greedy backslash-s-plus: at least one whitespace character, maximal run. -/
def ws1 : List Char → Option (List Char)
  | [] => none
  | c :: cs => if isWs c then some (cs.dropWhile isWs) else none

/-- One quote character. -/
def quote1 : List Char → Option (List Char)
  | [] => none
  | c :: cs => if isQuote c then some cs else none

/-- Greedy plus over the negated quote class: at least one non-quote, maximal run. -/
def nonQuote1 : List Char → Option (List Char)
  | [] => none
  | c :: cs => if isQuote c then none else some (cs.dropWhile (fun x => !isQuote x))

/-- Greedy optional semicolon. -/
def semiOpt : List Char → List Char
  | [] => []
  | c :: cs => if c = ';' then cs else c :: cs

def impKw : List Char := "import".data

def expKw : List Char := "export".data

/-- The tail of the first bundler regex: from, whitespace, a quoted module name,
    an optional semicolon. -/
def fromPart (l : List Char) : Option (List Char) :=
  (lit "from".data l).bind fun r1 =>
  (ws1 r1).bind fun r2 =>
  (quote1 r2).bind fun r3 =>
  (nonQuote1 r3).bind fun r4 =>
  (quote1 r4).map semiOpt

/-- The lazy any-character-star of the first bundler regex: try the from part at
    each successive position and stop at the first success. -/
def scanFrom : List Char → Option (List Char)
  | [] => none
  | c :: cs =>
    match fromPart (c :: cs) with
    | some r => some r
    | none => scanFrom cs

/-- First replacement of the bundler: the import-from regex, replaced by the
    empty string. -/
def matchImportFrom (l : List Char) : Option (List Char × List Char) :=
  (lit impKw l).bind fun r1 =>
  (ws1 r1).bind fun r2 =>
  (scanFrom r2).map fun rest => (([] : List Char), rest)

/-- Second replacement of the bundler: the side-effect import regex, replaced by
    the empty string. -/
def matchSideEffect (l : List Char) : Option (List Char × List Char) :=
  (lit impKw l).bind fun r1 =>
  (ws1 r1).bind fun r2 =>
  (quote1 r2).bind fun r3 =>
  (nonQuote1 r3).bind fun r4 =>
  (quote1 r4).map fun r5 => (([] : List Char), semiOpt r5)

/-- Third replacement of the bundler: export default followed by whitespace,
    replaced by the empty string. -/
def matchExportDefault (l : List Char) : Option (List Char × List Char) :=
  (lit expKw l).bind fun r1 =>
  (ws1 r1).bind fun r2 =>
  (lit "default".data r2).bind fun r3 =>
  (ws1 r3).map fun rest => (([] : List Char), rest)

/-- The declaration keyword alternation of the fourth bundler regex, in source
    order. -/
def declKws : List (List Char) :=
  ["const".data, "function".data, "class".data, "interface".data, "type".data,
   "enum".data]

/-- Try each alternative in order; the first literal that matches wins. -/
def tryKw : List (List Char) → List Char → Option (List Char × List Char)
  | [], _ => none
  | k :: ks, l =>
    match lit k l with
    | some r => some (k, r)
    | none => tryKw ks l

/-- Fourth replacement of the bundler: export followed by whitespace and a
    declaration keyword, replaced by the captured keyword. -/
def matchExportDecl (l : List Char) : Option (List Char × List Char) :=
  (lit expKw l).bind fun r1 =>
  (ws1 r1).bind fun r2 => tryKw declKws r2

/-- Global replacement: scan left to right, at each position emit the
    replacement of a match and continue after it, or keep the character and
    advance by one. Fuel bounds the recursion; the list length is enough fuel
    because every pattern consumes at least one character. -/
def replGo (m : List Char → Option (List Char × List Char)) :
    Nat → List Char → List Char
  | _, [] => []
  | 0, l => l
  | f + 1, c :: cs =>
    match m (c :: cs) with
    | some (r, rest) => r ++ replGo m f rest
    | none => c :: replGo m f cs

/-- Global regex replacement over a whole text. -/
def replaceAll (m : List Char → Option (List Char × List Char))
    (l : List Char) : List Char :=
  replGo m l.length l

/-- The four-step rewrite pipeline of the pybind11 page bundler. -/
def rewriteCodeP (code : List Char) : List Char :=
  replaceAll matchExportDecl
    (replaceAll matchExportDefault
      (replaceAll matchSideEffect
        (replaceAll matchImportFrom code)))

/-- The four-step rewrite pipeline of the memory-pool page bundler. -/
def rewriteCodeM (code : List Char) : List Char :=
  replaceAll matchExportDecl
    (replaceAll matchExportDefault
      (replaceAll matchSideEffect
        (replaceAll matchImportFrom code)))

/-- Network behaviour of one bundle invocation: the base document fetch and the
    per-path fetches each either succeed with a text or fail. -/
structure FetchOracle where
  html : Option (List Char)
  files : List Char → Option (List Char)

/-- Observable outcome of one invocation of the download handler. -/
structure BundleOutcome where
  zipEntries : List (List Char × List Char)
  savedAs : Option (List Char)
  alerts : Nat
  warnings : Nat
  htmlFetched : Bool
  fileFetches : List (List Char)
  finalDownloading : Bool

/-- The manifest, fixed in dependency order in both pages. -/
def filesToBundle : List (List Char) :=
  ["types.ts".data, "components/QuantumScene.tsx".data,
   "components/Diagrams.tsx".data, "App.tsx".data, "index.tsx".data]

/-- The master import block of the pybind11 page. -/
def masterImportsP : List Char :=
  ("\nimport React, \x7b useState, useEffect, useRef \x7d from \x27react\x27;\nimport ReactDOM from \x27react-dom/client\x27;\nimport * as THREE from \x27three\x27;\nimport \x7b Canvas, useFrame \x7d from \x27@react-three/fiber\x27;\nimport \x7b Float, MeshDistortMaterial, Sphere, Icosahedron, Box, Environment, Stars \x7d from \x27@react-three/drei\x27;\nimport \x7b motion \x7d from \x27framer-motion\x27;\nimport \x7b ArrowDown, Menu, X, ExternalLink, Code2, AlertTriangle, Layers, Download, Loader2, Check, Copy, Terminal, ArrowRight, ArrowLeftRight, Hammer, FileCode, Monitor, Lock, Trash2, Split, Scale, CheckCircle2, XCircle \x7d from \x27lucide-react\x27;\nimport JSZip from \x27jszip\x27;\nimport saveAs from \x27file-saver\x27;\n").data

/-- The master import block of the memory-pool page. -/
def masterImportsM : List Char :=
  ("\nimport React, \x7b useState, useEffect, useRef, useMemo \x7d from \x27react\x27;\nimport ReactDOM from \x27react-dom/client\x27;\nimport * as THREE from \x27three\x27;\nimport \x7b Canvas, useFrame \x7d from \x27@react-three/fiber\x27;\nimport \x7b Float, Box, Environment, Stars, Instances, Instance \x7d from \x27@react-three/drei\x27;\nimport \x7b motion, AnimatePresence \x7d from \x27framer-motion\x27;\nimport \x7b ArrowDown, Menu, X, ExternalLink, Code2, AlertTriangle, Layers, Download, Loader2, Check, Copy, Terminal, ArrowRight, Clock, Zap, Cpu, Hammer, FileCode, Monitor, Lock, Trash2, Split, Scale, CheckCircle2, XCircle, Server, Database, Bug, BookOpen, Component, Braces, AlertCircle, Info, Flame, Target, ShieldAlert, Workflow \x7d from \x27lucide-react\x27;\nimport JSZip from \x27jszip\x27;\nimport saveAs from \x27file-saver\x27;\n").data

/-- The source-origin marker block appended for a successfully fetched and
    rewritten manifest file. -/
def srcBlock (file code : List Char) : List Char :=
  "\n\n/* --- Source: ".data ++ file ++ " --- */\n".data ++ code ++ "\n".data

/-- The placeholder comment appended when the fetch of a manifest file fails. -/
def errBlock (file : List Char) : List Char :=
  "\n/* Error loading ".data ++ file ++ " */\n".data

/-- The per-file loop of the pybind11 page: accumulate blocks onto the combined
    code and count per-file failures (each failure also logs a console
    warning in this page). -/
def bundleLoopP (o : FetchOracle) :
    List (List Char) → List Char → Nat → List Char × Nat
  | [], acc, w => (acc, w)
  | f :: fs, acc, w =>
    match o.files f with
    | some code => bundleLoopP o fs (acc ++ srcBlock f (rewriteCodeP code)) w
    | none => bundleLoopP o fs (acc ++ errBlock f) (w + 1)

/-- The per-file loop of the memory-pool page: same accumulation; its catch
    branch logs nothing. -/
def bundleLoopM (o : FetchOracle) :
    List (List Char) → List Char → Nat → List Char × Nat
  | [], acc, w => (acc, w)
  | f :: fs, acc, w =>
    match o.files f with
    | some code => bundleLoopM o fs (acc ++ srcBlock f (rewriteCodeM code)) w
    | none => bundleLoopM o fs (acc ++ errBlock f) (w + 1)

/-- Combined code and failure count of a pybind11-page invocation. -/
def combinedCodeP (o : FetchOracle) : List Char × Nat :=
  bundleLoopP o filesToBundle masterImportsP 0

/-- Combined code and failure count of a memory-pool-page invocation. -/
def combinedCodeM (o : FetchOracle) : List Char × Nat :=
  bundleLoopM o filesToBundle masterImportsM 0

/-- The Babel standalone loader tag. -/
def babelScript : List Char :=
  "<script src=\"https://unpkg.com/@babel/standalone/babel.min.js\"></script>".data

/-- The inline executable block wrapping the combined code. -/
def mainScript (combined : List Char) : List Char :=
  "\n    <script type=\"text/babel\" data-type=\"module\" data-presets=\"typescript,react\">\n".data
    ++ combined ++ "\n    </script>".data

def bodyClose : List Char := "</body>".data

/-- Split a text around the first occurrence of a pattern. -/
def splitFirst (pat : List Char) : List Char → Option (List Char × List Char)
  | [] => (lit pat []).map fun r => (([] : List Char), r)
  | c :: cs =>
    match lit pat (c :: cs) with
    | some r => some (([] : List Char), r)
    | none => (splitFirst pat cs).map fun pr => (c :: pr.1, pr.2)

/-- ECMAScript String.prototype.includes for our texts. -/
def includesS (l pat : List Char) : Bool := (splitFirst pat l).isSome

/-- Expansion of the dollar substitution patterns of GetSubstitution: dollar
    dollar, dollar ampersand, dollar backtick and dollar quote; any other
    dollar is literal. With a string search there are no capture groups. -/
def expandRepl (matched pre post : List Char) : List Char → List Char
  | [] => []
  | [c] => [c]
  | c :: d :: r =>
    if c = '$' then
      if d = '$' then '$' :: expandRepl matched pre post r
      else if d = '&' then matched ++ expandRepl matched pre post r
      else if d = '\x60' then pre ++ expandRepl matched pre post r
      else if d = '\x27' then post ++ expandRepl matched pre post r
      else c :: expandRepl matched pre post (d :: r)
    else c :: expandRepl matched pre post (d :: r)

/-- ECMAScript String.prototype.replace with a string search value: replace the
    first occurrence, expanding dollar patterns in the replacement. -/
def replaceFirstJS (l pat rep : List Char) : List Char :=
  match splitFirst pat l with
  | none => l
  | some (pre, post) => pre ++ expandRepl pat pre post rep ++ post

/-- Script injection of both pages: before the first closing body marker when it
    exists, else appended at the end. -/
def injectScripts (html scripts : List Char) : List Char :=
  if includesS html bodyClose then
    replaceFirstJS html bodyClose (scripts ++ "\n</body>".data)
  else html ++ scripts

/-- The README text of the pybind11 page archive. -/
def readmeP : List Char :=
  ("# pybind11 Website Source (bundled)\n\n## 如何运行 (How to Run)\n\n此版本已将所有 TypeScript 源码合并到 `index.html` 中，方便查看和调试。\n\n### 步骤 (Steps)\n1. 解压文件。\n2. 在解压目录打开终端。\n3. 启动一个本地服务器 (由于 CORS 限制，直接双击 html 可能无法加载 CDN 资源):\n   \n   **Python:**\n   ```bash\n   python -m http.server\n   ```\n   \n   **Node.js:**\n   ```bash\n   npx serve\n   ```\n\n4. 在浏览器访问 `http://localhost:8000` (或 3000)。\n\n### 依赖 (Dependencies)\n本网页运行时依赖 React, Three.js 等 CDN 资源，请确保**网络连接正常**。\n").data

/-- The README text of the memory-pool page archive. -/
def readmeM : List Char :=
  "# Memory Pool Website Source\n\nSee index.html for bundled source.".data

def zipNameP : List Char := "pybind11-website-bundled.zip".data

def zipNameM : List Char := "memory-pool-site.zip".data

def indexName : List Char := "index.html".data

def readmeName : List Char := "README.md".data

/-- One invocation of the download handler of the pybind11 page, given the
    in-flight flag and the network oracle. -/
def handleDownloadP (isDownloading : Bool) (o : FetchOracle) : BundleOutcome :=
  if isDownloading then ⟨[], none, 0, 0, false, [], true⟩
  else
    match o.html with
    | none => ⟨[], none, 1, 0, true, [], false⟩
    | some html =>
      let cw := combinedCodeP o
      let scripts := babelScript ++ "\n".data ++ mainScript cw.1
      ⟨[(indexName, injectScripts html scripts), (readmeName, readmeP)],
       some zipNameP, 0, cw.2, true, filesToBundle, false⟩

/-- One invocation of the download handler of the memory-pool page. -/
def handleDownloadM (isDownloading : Bool) (o : FetchOracle) : BundleOutcome :=
  if isDownloading then ⟨[], none, 0, 0, false, [], true⟩
  else
    match o.html with
    | none => ⟨[], none, 1, 0, true, [], false⟩
    | some html =>
      let cw := combinedCodeM o
      let scripts := babelScript ++ "\n".data ++ mainScript cw.1
      ⟨[(indexName, injectScripts html scripts), (readmeName, readmeM)],
       some zipNameM, 0, 0, true, filesToBundle, false⟩

/-- Any position of a text, including the empty final position. -/
def anyPos (p : List Char → Bool) : List Char → Bool
  | [] => p []
  | c :: cs => p (c :: cs) || anyPos p cs

/-- Substring occurrence test. -/
def hasSub (pat l : List Char) : Bool :=
  anyPos (fun t => (lit pat t).isSome) l

/-- A position starting with one of the two keywords the four patterns need. -/
def kwStart (l : List Char) : Bool :=
  (lit impKw l).isSome || (lit expKw l).isSome

/-- No keyword start within the first n positions of the text. -/
def kwFreeBefore : Nat → List Char → Bool
  | 0, _ => true
  | _ + 1, [] => true
  | n + 1, c :: cs => !kwStart (c :: cs) && kwFreeBefore n cs

/-- No keyword start anywhere in the text. -/
def kwFree (l : List Char) : Bool := kwFreeBefore l.length l

/-- Modelled from the spec: the TypeScript declaration forms an export
    qualifier can precede at top level. -/
def specDeclKws : List (List Char) :=
  ["const".data, "let".data, "var".data, "function".data, "class".data,
   "interface".data, "type".data, "enum".data, "abstract".data, "async".data,
   "declare".data, "namespace".data, "default".data]

/-- Modelled from the spec: a position carrying an export qualifier on a
    declaration, that is the keyword export, whitespace, and a declaration
    form. -/
def specExportQualAt (l : List Char) : Bool :=
  match (lit expKw l).bind ws1 with
  | some r => specDeclKws.any fun k => (lit k r).isSome
  | none => false

/-- Modelled from the spec: the text contains an export qualifier on a
    declaration. -/
def specExportQualifier (l : List Char) : Bool := anyPos specExportQualAt l

/-- Modelled from the spec: the example local-server invocation commands named
    by the interface section. -/
def specServerCommand (l : List Char) : Bool :=
  hasSub "python -m http.server".data l || hasSub "npx serve".data l

/-- No dollar substitution pattern occurs in the text. -/
def dollarPairAt : List Char → Bool
  | '$' :: d :: _ => d = '$' || d = '&' || d = '\x60' || d = '\x27'
  | _ => false

/-- A replacement text free of dollar substitution patterns expands to
    itself. -/
def dollarSafe (l : List Char) : Bool := !anyPos dollarPairAt l

/-- The block a manifest file contributes to the combined code in the pybind11
    page: the marked rewritten source on success, the placeholder comment on
    failure. -/
def blockOfP (o : FetchOracle) (f : List Char) : List Char :=
  match o.files f with
  | some code => srcBlock f (rewriteCodeP code)
  | none => errBlock f

/-- The block a manifest file contributes to the combined code in the
    memory-pool page. -/
def blockOfM (o : FetchOracle) (f : List Char) : List Char :=
  match o.files f with
  | some code => srcBlock f (rewriteCodeM code)
  | none => errBlock f

/-- An oracle whose base document fetch fails. -/
def oracleFail : FetchOracle := ⟨none, fun _ => none⟩

/-- An oracle whose base document fetch succeeds while every manifest file
    fetch fails. -/
def oracleAllFail : FetchOracle :=
  ⟨some "<html><body>x</body></html>".data, fun _ => none⟩

/-- An oracle for which every fetch succeeds. -/
def oracleOk : FetchOracle :=
  ⟨some "<p></body>".data, fun _ => some "let a = 0;".data⟩

/-- An oracle agreeing with oracleOk on the base document and on every manifest
    path while differing elsewhere. -/
def oracleOk2 : FetchOracle :=
  ⟨some "<p></body>".data,
   fun f => if f = "other.ts".data then none else some "let a = 0;".data⟩

/-- An oracle for which exactly one manifest file fetch fails. -/
def oracleOneFail : FetchOracle :=
  ⟨some "<p></body>".data,
   fun f => if f = "types.ts".data then none else some "let a = 0;".data⟩

/-- The head of a text, when present, fails the predicate. -/
def headFails (p : Char → Bool) : List Char → Bool
  | [] => true
  | c :: _ => !p c

/-- The head of a text, when present, is not whitespace. -/
def headNotWs (l : List Char) : Bool := headFails isWs l

/-- One document segment: keyword-free text, an import-from declaration, a
    side-effect import, an export-default prefix, or an exported declaration
    head. The fields are arbitrary: any whitespace runs, any specifier text,
    any quoted module name with either quote character, any of the six
    declaration keywords of the alternation. -/
inductive Seg where
  | txt (t : List Char)
  | impFrom (w mid w2 nm : List Char) (q q2 : Char)
  | impSide (w nm : List Char) (q q2 : Char)
  | expDef (w w2 : List Char)
  | expDecl (w kw : List Char)

/-- The source text of a segment. -/
def segRender : Seg → List Char
  | .txt t => t
  | .impFrom w mid w2 nm q q2 =>
      impKw ++ (w ++ (mid ++ ("from".data ++ (w2 ++ (q :: (nm ++ (q2 :: [';'])))))))
  | .impSide w nm q q2 => impKw ++ (w ++ (q :: (nm ++ (q2 :: [';']))))
  | .expDef w w2 => expKw ++ (w ++ ("default".data ++ w2))
  | .expDecl w kw => expKw ++ (w ++ kw)

/-- The text of a segment after the import-from pass. -/
def segStage1 : Seg → List Char
  | .impFrom _ _ _ _ _ _ => []
  | s => segRender s

/-- The text of a segment after the side-effect import pass. -/
def segStage2 : Seg → List Char
  | .impFrom _ _ _ _ _ _ => []
  | .impSide _ _ _ _ => []
  | s => segRender s

/-- The text of a segment after the export-default pass. -/
def segStage3 : Seg → List Char
  | .impFrom _ _ _ _ _ _ => []
  | .impSide _ _ _ _ => []
  | .expDef _ _ => []
  | s => segRender s

/-- The text of a segment after the export-declaration pass: text survives,
    both import declaration forms and the export-default prefix are deleted,
    and an exported declaration head is reduced to its bare keyword. -/
def segStage4 : Seg → List Char
  | .txt t => t
  | .expDecl _ kw => kw
  | _ => []

/-- A whole document under a per-segment text function. -/
def renderDoc (st : Seg → List Char) (segs : List Seg) : List Char :=
  (segs.map st).flatten

/-- Structural well-formedness of one segment: whitespace runs are nonempty
    whitespace, quotes are quote characters, module names are nonempty and
    quote-free, specifier text does not begin with whitespace, and the
    declaration keyword is one of the six of the alternation. -/
def segWF : Seg → Bool
  | .txt _ => true
  | .impFrom w mid w2 nm q q2 =>
      decide (w ≠ []) && w.all isWs && headNotWs mid &&
      decide (w2 ≠ []) && w2.all isWs && isQuote q &&
      decide (nm ≠ []) && nm.all (fun c => !isQuote c) && isQuote q2
  | .impSide w nm q q2 =>
      decide (w ≠ []) && w.all isWs && isQuote q &&
      decide (nm ≠ []) && nm.all (fun c => !isQuote c) && isQuote q2
  | .expDef w w2 => decide (w ≠ []) && w.all isWs && decide (w2 ≠ []) && w2.all isWs
  | .expDecl w kw => decide (w ≠ []) && w.all isWs && decide (kw ∈ declKws)

def segsWF (segs : List Seg) : Bool := segs.all segWF

/-- No keyword start at the positions after the first one of a piece, relative
    to its continuation. -/
def tailKwFree (i cont : List Char) : Bool :=
  match i with
  | [] => true
  | _ :: i2 => kwFreeBefore i2.length (i2 ++ cont)

/-- The from part fails at each of the first n positions of the text. -/
def fromFreeBefore : Nat → List Char → Bool
  | 0, _ => true
  | _ + 1, [] => true
  | n + 1, c :: cs => (fromPart (c :: cs)).isNone && fromFreeBefore n cs

/-- Cleanliness for the import-from pass: text pieces start no keyword
    anywhere, the lazy scan of an import-from declaration meets no earlier
    from part, a side-effect import is followed by no from part at all, and
    the tails of the surviving keyword-led pieces start no keyword. -/
def clean1 : List Seg → Bool
  | [] => true
  | s :: rest =>
    (match s with
     | .txt t => kwFreeBefore t.length (t ++ renderDoc segRender rest)
     | .impFrom _ mid w2 nm q q2 =>
         fromFreeBefore mid.length
           (mid ++ ("from".data ++ (w2 ++ (q :: (nm ++ (q2 :: (';' :: renderDoc segRender rest)))))))
     | .impSide _ nm q q2 =>
         (scanFrom (q :: (nm ++ (q2 :: (';' :: renderDoc segRender rest))))).isNone &&
         tailKwFree (segRender s) (renderDoc segRender rest)
     | .expDef _ _ => tailKwFree (segRender s) (renderDoc segRender rest)
     | .expDecl _ _ => tailKwFree (segRender s) (renderDoc segRender rest)) &&
    clean1 rest

/-- Cleanliness for the side-effect import pass, over the document left by the
    first pass. -/
def clean2 : List Seg → Bool
  | [] => true
  | s :: rest =>
    (match s with
     | .txt t => kwFreeBefore t.length (t ++ renderDoc segStage1 rest)
     | .impFrom _ _ _ _ _ _ => true
     | .impSide _ _ _ _ => true
     | .expDef _ _ => tailKwFree (segRender s) (renderDoc segStage1 rest)
     | .expDecl _ _ => tailKwFree (segRender s) (renderDoc segStage1 rest)) &&
    clean2 rest

/-- Cleanliness for the export-default pass: the continuation of an
    export-default prefix must not begin with whitespace, since the trailing
    whitespace-plus of the pattern would swallow it. -/
def clean3 : List Seg → Bool
  | [] => true
  | s :: rest =>
    (match s with
     | .txt t => kwFreeBefore t.length (t ++ renderDoc segStage2 rest)
     | .expDef _ _ => headNotWs (renderDoc segStage2 rest)
     | .expDecl _ _ => tailKwFree (segRender s) (renderDoc segStage2 rest)
     | _ => true) &&
    clean3 rest

/-- Cleanliness for the export-declaration pass. -/
def clean4 : List Seg → Bool
  | [] => true
  | s :: rest =>
    (match s with
     | .txt t => kwFreeBefore t.length (t ++ renderDoc segStage3 rest)
     | _ => true) &&
    clean4 rest

/-- Obligations making one global replacement pass act segmentwise: each piece
    is either left alone, the pattern failing at each of its positions, or is
    matched at its head, consumed exactly, and replaced. -/
def PassOK (m : List Char → Option (List Char × List Char))
    (stIn stOut : Seg → List Char) : List Seg → Prop
  | [] => True
  | s :: rest =>
      ((stOut s = stIn s ∧
        ∀ j, j < (stIn s).length →
          m (List.drop j (stIn s ++ renderDoc stIn rest)) = none) ∨
        m (stIn s ++ renderDoc stIn rest) = some (stOut s, renderDoc stIn rest)) ∧
      PassOK m stIn stOut rest

/-- A concrete witness document exercising every segment form and all six
    declaration keywords. -/
def wSegs : List Seg :=
  [.txt "const before = 1;\n".data,
   .impFrom " ".data "React, \x7b useState \x7d ".data " ".data "react".data '\x27' '\x27',
   .txt "\n".data,
   .impSide " ".data "./style.css".data '"' '"',
   .txt "\nlet keep = 2;\n".data,
   .expDef " ".data " ".data,
   .txt "App;\n".data,
   .expDecl " ".data "const".data,
   .txt " A = 3;\n".data,
   .expDecl " ".data "function".data,
   .txt " f() \x7b\x7d\n".data,
   .expDecl " ".data "class".data,
   .txt " C \x7b\x7d\n".data,
   .expDecl " ".data "interface".data,
   .txt " I \x7b\x7d\n".data,
   .expDecl " ".data "type".data,
   .txt " T = number;\n".data,
   .expDecl " ".data "enum".data,
   .txt " E \x7b\x7d\n".data]

/- Helper lemmas: every pattern consumes at least one character, so the list
   length is sufficient fuel for the global replacement. -/

theorem dropWhile_len (p : Char → Bool) (l : List Char) :
    (l.dropWhile p).length ≤ l.length := by
  induction l with
  | nil => simp [List.dropWhile]
  | cons c cs ih =>
    simp only [List.dropWhile]
    split
    · exact le_trans ih (by simp)
    · simp

theorem lit_length {p l r : List Char} (h : lit p l = some r) :
    p.length + r.length = l.length := by
  induction p generalizing l with
  | nil => simp [lit] at h; simp [h]
  | cons x xs ih =>
    cases l with
    | nil => simp [lit] at h
    | cons c cs =>
      simp only [lit] at h
      split at h
      · have := ih h
        simp [List.length_cons]
        omega
      · exact absurd h (by simp)

theorem lit_append {p l r : List Char} (h : lit p l = some r) : l = p ++ r := by
  induction p generalizing l with
  | nil => simp [lit] at h; simp [h]
  | cons x xs ih =>
    cases l with
    | nil => simp [lit] at h
    | cons c cs =>
      simp only [lit] at h
      split at h
      next he => simp [he, ih h]
      · exact absurd h (by simp)

theorem ws1_lt {l r : List Char} (h : ws1 l = some r) : r.length < l.length := by
  cases l with
  | nil => simp [ws1] at h
  | cons c cs =>
    simp only [ws1] at h
    split at h
    · cases h
      exact lt_of_le_of_lt (dropWhile_len _ _) (by simp)
    · exact absurd h (by simp)

theorem quote1_lt {l r : List Char} (h : quote1 l = some r) : r.length < l.length := by
  cases l with
  | nil => simp [quote1] at h
  | cons c cs =>
    simp only [quote1] at h
    split at h
    · cases h; simp
    · exact absurd h (by simp)

theorem nonQuote1_lt {l r : List Char} (h : nonQuote1 l = some r) :
    r.length < l.length := by
  cases l with
  | nil => simp [nonQuote1] at h
  | cons c cs =>
    simp only [nonQuote1] at h
    split at h
    · exact absurd h (by simp)
    · cases h
      exact lt_of_le_of_lt (dropWhile_len _ _) (by simp)

theorem semiOpt_le (l : List Char) : (semiOpt l).length ≤ l.length := by
  cases l with
  | nil => simp [semiOpt]
  | cons c cs =>
    simp only [semiOpt]
    split <;> simp

theorem fromPart_lt {l r : List Char} (h : fromPart l = some r) :
    r.length < l.length := by
  simp only [fromPart, Option.bind_eq_some, Option.map_eq_some'] at h
  obtain ⟨r1, h1, r2, h2, r3, h3, r4, h4, r5, h5, he⟩ := h
  have e1 := lit_length h1
  have e2 := ws1_lt h2
  have e3 := quote1_lt h3
  have e4 := nonQuote1_lt h4
  have e5 := quote1_lt h5
  have e6 : r.length ≤ r5.length := he ▸ semiOpt_le r5
  omega

theorem scanFrom_le {l r : List Char} (h : scanFrom l = some r) :
    r.length ≤ l.length := by
  induction l with
  | nil => simp [scanFrom] at h
  | cons c cs ih =>
    simp only [scanFrom] at h
    split at h
    next hf =>
      cases h
      exact le_of_lt (fromPart_lt hf)
    · exact le_trans (ih h) (by simp)

theorem matchImportFrom_lt {l : List Char} {x : List Char × List Char}
    (h : matchImportFrom l = some x) : x.2.length < l.length := by
  simp only [matchImportFrom, Option.bind_eq_some, Option.map_eq_some'] at h
  obtain ⟨r1, h1, r2, h2, r3, h3, he⟩ := h
  have e1 := lit_length h1
  have e2 := ws1_lt h2
  have e3 := scanFrom_le h3
  have : x.2 = r3 := by rw [← he]
  rw [this]
  have : impKw.length = 6 := rfl
  omega

theorem matchSideEffect_lt {l : List Char} {x : List Char × List Char}
    (h : matchSideEffect l = some x) : x.2.length < l.length := by
  simp only [matchSideEffect, Option.bind_eq_some, Option.map_eq_some'] at h
  obtain ⟨r1, h1, r2, h2, r3, h3, r4, h4, r5, h5, he⟩ := h
  have e1 := lit_length h1
  have e2 := ws1_lt h2
  have e3 := quote1_lt h3
  have e4 := nonQuote1_lt h4
  have e5 := quote1_lt h5
  have e6 : x.2 = semiOpt r5 := by rw [← he]
  have e7 := semiOpt_le r5
  rw [e6]
  have : impKw.length = 6 := rfl
  omega

theorem matchExportDefault_lt {l : List Char} {x : List Char × List Char}
    (h : matchExportDefault l = some x) : x.2.length < l.length := by
  simp only [matchExportDefault, Option.bind_eq_some, Option.map_eq_some'] at h
  obtain ⟨r1, h1, r2, h2, r3, h3, r4, h4, he⟩ := h
  have e1 := lit_length h1
  have e2 := ws1_lt h2
  have e3 := lit_length h3
  have e4 := ws1_lt h4
  have : x.2 = r4 := by rw [← he]
  rw [this]
  have : expKw.length = 6 := rfl
  omega

theorem tryKw_lt {ks : List (List Char)} {l : List Char} {x : List Char × List Char}
    (hne : ∀ k ∈ ks, k ≠ []) (h : tryKw ks l = some x) : x.2.length < l.length := by
  induction ks with
  | nil => simp [tryKw] at h
  | cons k ks ih =>
    simp only [tryKw] at h
    split at h
    next r hl =>
      cases h
      have := lit_length hl
      have hk : k ≠ [] := hne k (by simp)
      have : 0 < k.length := List.length_pos.mpr hk
      simp
      omega
    · exact ih (fun a ha => hne a (by simp [ha])) h

theorem matchExportDecl_lt {l : List Char} {x : List Char × List Char}
    (h : matchExportDecl l = some x) : x.2.length < l.length := by
  simp only [matchExportDecl, Option.bind_eq_some] at h
  obtain ⟨r1, h1, r2, h2, h3⟩ := h
  have e1 := lit_length h1
  have e2 := ws1_lt h2
  have e3 := tryKw_lt (by decide) h3
  have : expKw.length = 6 := rfl
  omega

/-- Consumption property shared by the four patterns. -/
def Consumes (m : List Char → Option (List Char × List Char)) : Prop :=
  ∀ l x, m l = some x → x.2.length < l.length

theorem replGo_nil (m : List Char → Option (List Char × List Char)) (f : Nat) :
    replGo m f [] = [] := by
  cases f <;> rfl

theorem replGo_succ_cons (m : List Char → Option (List Char × List Char))
    (f : Nat) (c : Char) (cs : List Char) :
    replGo m (f + 1) (c :: cs) =
      match m (c :: cs) with
      | some (r, rest) => r ++ replGo m f rest
      | none => c :: replGo m f cs := rfl

theorem replGo_congr {m : List Char → Option (List Char × List Char)}
    (hm : Consumes m) :
    ∀ f g l, l.length ≤ f → l.length ≤ g → replGo m f l = replGo m g l := by
  intro f
  induction f with
  | zero =>
    intro g l hf _
    have : l = [] := List.length_eq_zero.mp (Nat.le_zero.mp hf)
    subst this
    rw [replGo_nil, replGo_nil]
  | succ f ih =>
    intro g l hf hg
    cases l with
    | nil => rw [replGo_nil, replGo_nil]
    | cons c cs =>
      cases g with
      | zero => simp at hg
      | succ g =>
        rw [replGo_succ_cons, replGo_succ_cons]
        cases hx : m (c :: cs) with
        | some x =>
          obtain ⟨r, rest⟩ := x
          have hlt : rest.length < cs.length + 1 := by
            simpa using hm _ _ hx
          have h1 : rest.length ≤ f := by simp at hf; omega
          have h2 : rest.length ≤ g := by simp at hg; omega
          simp only []
          rw [ih g rest h1 h2]
        | none =>
          simp only []
          rw [ih g cs (by simp at hf; omega) (by simp at hg; omega)]

theorem replaceAll_nil (m : List Char → Option (List Char × List Char)) :
    replaceAll m [] = [] := rfl

theorem replaceAll_pos {m : List Char → Option (List Char × List Char)}
    (hm : Consumes m) {c : Char} {cs r rest : List Char}
    (h : m (c :: cs) = some (r, rest)) :
    replaceAll m (c :: cs) = r ++ replaceAll m rest := by
  have hlt : rest.length < cs.length + 1 := by simpa using hm _ _ h
  unfold replaceAll
  rw [List.length_cons, replGo_succ_cons, h]
  simp only []
  rw [replGo_congr hm cs.length rest.length rest (by omega) (le_refl _)]

theorem replaceAll_neg {m : List Char → Option (List Char × List Char)}
    {c : Char} {cs : List Char} (h : m (c :: cs) = none) :
    replaceAll m (c :: cs) = c :: replaceAll m cs := by
  unfold replaceAll
  rw [List.length_cons, replGo_succ_cons, h]

/-- Keyword requirement shared by the four patterns. -/
def NeedsKw (m : List Char → Option (List Char × List Char)) : Prop :=
  ∀ l x, m l = some x → kwStart l = true

theorem matchImportFrom_kw : NeedsKw matchImportFrom := by
  intro l x h
  simp only [matchImportFrom, Option.bind_eq_some] at h
  obtain ⟨r1, h1, _⟩ := h
  simp [kwStart, h1]

theorem matchSideEffect_kw : NeedsKw matchSideEffect := by
  intro l x h
  simp only [matchSideEffect, Option.bind_eq_some] at h
  obtain ⟨r1, h1, _⟩ := h
  simp [kwStart, h1]

theorem matchExportDefault_kw : NeedsKw matchExportDefault := by
  intro l x h
  simp only [matchExportDefault, Option.bind_eq_some] at h
  obtain ⟨r1, h1, _⟩ := h
  simp [kwStart, h1]

theorem matchExportDecl_kw : NeedsKw matchExportDecl := by
  intro l x h
  simp only [matchExportDecl, Option.bind_eq_some] at h
  obtain ⟨r1, h1, _⟩ := h
  simp [kwStart, h1]

theorem matchImportFrom_con : Consumes matchImportFrom :=
  fun _ _ h => matchImportFrom_lt h

theorem matchSideEffect_con : Consumes matchSideEffect :=
  fun _ _ h => matchSideEffect_lt h

theorem matchExportDefault_con : Consumes matchExportDefault :=
  fun _ _ h => matchExportDefault_lt h

theorem matchExportDecl_con : Consumes matchExportDecl :=
  fun _ _ h => matchExportDecl_lt h

/-- A match anywhere rewrites to the replacement followed by the rewritten
    remainder. -/
theorem replaceAll_match {m : List Char → Option (List Char × List Char)}
    (hm : Consumes m) {l r rest : List Char} (h : m l = some (r, rest)) :
    replaceAll m l = r ++ replaceAll m rest := by
  cases l with
  | nil =>
    have := hm _ _ h
    simp at this
  | cons c cs => exact replaceAll_pos hm h

/-- A scan passes unchanged over a region at whose positions the pattern
    fails. -/
theorem scan_skip2 {m : List Char → Option (List Char × List Char)} :
    ∀ (a rest : List Char),
      (∀ j, j < a.length → m (List.drop j (a ++ rest)) = none) →
      replaceAll m (a ++ rest) = a ++ replaceAll m rest := by
  intro a
  induction a with
  | nil => simp
  | cons c a ih =>
    intro rest h
    have h0 : m (c :: (a ++ rest)) = none := by
      have := h 0 (by simp)
      simpa using this
    rw [List.cons_append, replaceAll_neg h0,
      ih rest (fun j hj => by
        have := h (j + 1) (by simp; omega)
        simpa using this), List.cons_append]

theorem lit_self (p l : List Char) : lit p (p ++ l) = some l := by
  induction p with
  | nil => rfl
  | cons c cs ih => simp [lit, ih]

theorem quote_not_ws {c : Char} (h : isQuote c = true) : isWs c = false := by
  simp only [isQuote, Bool.or_eq_true, decide_eq_true_eq] at h
  rcases h with h | h <;> subst h <;> rfl

theorem dropWhile_append_exact {p : Char → Bool} {w t : List Char}
    (hw : w.all p = true) (ht : headFails p t = true) :
    List.dropWhile p (w ++ t) = t := by
  induction w with
  | nil =>
    cases t with
    | nil => rfl
    | cons c t2 =>
      simp only [headFails, Bool.not_eq_true'] at ht
      simp [List.dropWhile, ht]
  | cons c w2 ih =>
    simp only [List.all_cons, Bool.and_eq_true] at hw
    simp [List.dropWhile, hw.1, ih hw.2]

theorem dropWhile_append_pass {p : Char → Bool} {w t : List Char}
    (hw : w.all p = true) :
    List.dropWhile p (w ++ t) = List.dropWhile p t := by
  induction w with
  | nil => rfl
  | cons c w2 ih =>
    simp only [List.all_cons, Bool.and_eq_true] at hw
    simp [List.dropWhile, hw.1, ih hw.2]

theorem ws1_exact {w t : List Char} (hne : w ≠ []) (hw : w.all isWs = true)
    (ht : headFails isWs t = true) : ws1 (w ++ t) = some t := by
  cases w with
  | nil => exact absurd rfl hne
  | cons c w2 =>
    simp only [List.all_cons, Bool.and_eq_true] at hw
    simp [ws1, hw.1, dropWhile_append_exact hw.2 ht]

theorem quote1_cons {q : Char} {t : List Char} (h : isQuote q = true) :
    quote1 (q :: t) = some t := by
  simp [quote1, h]

theorem nonQuote1_exact {nm t : List Char} {q2 : Char} (hne : nm ≠ [])
    (hnm : nm.all (fun c => !isQuote c) = true) (hq2 : isQuote q2 = true) :
    nonQuote1 (nm ++ (q2 :: t)) = some (q2 :: t) := by
  cases nm with
  | nil => exact absurd rfl hne
  | cons c nm2 =>
    simp only [List.all_cons, Bool.and_eq_true] at hnm
    have h1 : isQuote c = false := by simpa using hnm.1
    have hd : List.dropWhile (fun x => !isQuote x) (nm2 ++ (q2 :: t)) = q2 :: t :=
      dropWhile_append_exact hnm.2 (by simp [headFails, hq2])
    simp [nonQuote1, h1, hd]

theorem fromPart_exact {w2 nm t : List Char} {q q2 : Char} (h2ne : w2 ≠ [])
    (h2 : w2.all isWs = true) (hq : isQuote q = true) (hnmne : nm ≠ [])
    (hnm : nm.all (fun c => !isQuote c) = true) (hq2 : isQuote q2 = true) :
    fromPart ("from".data ++ (w2 ++ (q :: (nm ++ (q2 :: (';' :: t)))))) = some t := by
  unfold fromPart
  rw [lit_self, Option.some_bind,
    ws1_exact h2ne h2 (by simp [headFails, quote_not_ws hq]), Option.some_bind,
    quote1_cons hq, Option.some_bind,
    nonQuote1_exact hnmne hnm hq2, Option.some_bind,
    quote1_cons hq2, Option.map_some']
  simp [semiOpt]

theorem scanFrom_fromTail {w2 nm t : List Char} {q q2 : Char} (h2ne : w2 ≠ [])
    (h2 : w2.all isWs = true) (hq : isQuote q = true) (hnmne : nm ≠ [])
    (hnm : nm.all (fun c => !isQuote c) = true) (hq2 : isQuote q2 = true) :
    scanFrom ("from".data ++ (w2 ++ (q :: (nm ++ (q2 :: (';' :: t)))))) = some t := by
  have hf : fromPart ('f' :: ("rom".data ++ (w2 ++ (q :: (nm ++ (q2 :: (';' :: t))))))) = some t :=
    fromPart_exact h2ne h2 hq hnmne hnm hq2
  show scanFrom ('f' :: ("rom".data ++ (w2 ++ (q :: (nm ++ (q2 :: (';' :: t))))))) = some t
  rw [scanFrom, hf]

theorem scanFrom_skip {a t : List Char}
    (h : ∀ j, j < a.length → fromPart (List.drop j (a ++ t)) = none) :
    scanFrom (a ++ t) = scanFrom t := by
  induction a with
  | nil => rfl
  | cons c a2 ih =>
    have h0 : fromPart (c :: (a2 ++ t)) = none := by simpa using h 0 (by simp)
    rw [List.cons_append, scanFrom, h0]
    exact ih fun j hj => by
      have := h (j + 1) (by simp; omega)
      simpa using this

theorem kwFreeBefore_spec {n : Nat} {l : List Char} (h : kwFreeBefore n l = true) :
    ∀ j, j < n → kwStart (List.drop j l) = false := by
  induction n generalizing l with
  | zero => intro j hj; omega
  | succ n ih =>
    intro j hj
    cases l with
    | nil => cases j <;> rfl
    | cons c cs =>
      simp only [kwFreeBefore, Bool.and_eq_true, Bool.not_eq_true'] at h
      cases j with
      | zero => simpa using h.1
      | succ j => simpa using ih h.2 j (by omega)

theorem fromFreeBefore_spec {n : Nat} {l : List Char} (h : fromFreeBefore n l = true) :
    ∀ j, j < n → fromPart (List.drop j l) = none := by
  induction n generalizing l with
  | zero => intro j hj; omega
  | succ n ih =>
    intro j hj
    cases l with
    | nil => cases j <;> rfl
    | cons c cs =>
      simp only [fromFreeBefore, Bool.and_eq_true, Option.isNone_iff_eq_none] at h
      cases j with
      | zero => simpa using h.1
      | succ j => simpa using ih h.2 j (by omega)

theorem none_of_not_kw {m : List Char → Option (List Char × List Char)}
    (hkw : NeedsKw m) {l : List Char} (h : kwStart l = false) : m l = none := by
  cases hx : m l with
  | none => rfl
  | some x =>
    rw [hkw l x hx] at h
    exact absurd h (by simp)

theorem inert_of_kwFree {m : List Char → Option (List Char × List Char)}
    (hkw : NeedsKw m) {i cont : List Char}
    (h : kwFreeBefore i.length (i ++ cont) = true) :
    ∀ j, j < i.length → m (List.drop j (i ++ cont)) = none :=
  fun j hj => none_of_not_kw hkw (kwFreeBefore_spec h j hj)

theorem inert_of_head_tail {m : List Char → Option (List Char × List Char)}
    (hkw : NeedsKw m) {i cont : List Char}
    (h0 : m (i ++ cont) = none) (ht : tailKwFree i cont = true) :
    ∀ j, j < i.length → m (List.drop j (i ++ cont)) = none := by
  intro j hj
  cases i with
  | nil => simp at hj
  | cons c i2 =>
    cases j with
    | zero => simpa using h0
    | succ j =>
      have hts : kwFreeBefore i2.length (i2 ++ cont) = true := by
        simpa [tailKwFree] using ht
      have := none_of_not_kw hkw (kwFreeBefore_spec hts j (by simpa using hj))
      simpa using this

theorem matchImportFrom_impFrom {w mid w2 nm t : List Char} {q q2 : Char}
    (hwne : w ≠ []) (hw : w.all isWs = true) (hmid : headNotWs mid = true)
    (hscan : ∀ j, j < mid.length →
      fromPart (List.drop j
        (mid ++ ("from".data ++ (w2 ++ (q :: (nm ++ (q2 :: (';' :: t)))))))) = none)
    (h2ne : w2 ≠ []) (h2 : w2.all isWs = true) (hq : isQuote q = true)
    (hnmne : nm ≠ []) (hnm : nm.all (fun c => !isQuote c) = true)
    (hq2 : isQuote q2 = true) :
    matchImportFrom
      (impKw ++ (w ++ (mid ++ ("from".data ++ (w2 ++ (q :: (nm ++ (q2 :: (';' :: t))))))))) =
      some ([], t) := by
  have hmid2 : headFails isWs (mid ++ ("from".data ++ (w2 ++ (q :: (nm ++ (q2 :: (';' :: t))))))) = true := by
    cases mid with
    | nil => rfl
    | cons c mid2 => simpa [headFails, headNotWs] using hmid
  unfold matchImportFrom
  rw [lit_self, Option.some_bind, ws1_exact hwne hw hmid2, Option.some_bind,
    scanFrom_skip hscan, scanFrom_fromTail h2ne h2 hq hnmne hnm hq2, Option.map_some']

theorem matchImportFrom_impSide {w nm t : List Char} {q q2 : Char}
    (hwne : w ≠ []) (hw : w.all isWs = true) (hq : isQuote q = true)
    (hscan : scanFrom (q :: (nm ++ (q2 :: (';' :: t)))) = none) :
    matchImportFrom (impKw ++ (w ++ (q :: (nm ++ (q2 :: (';' :: t)))))) = none := by
  unfold matchImportFrom
  rw [lit_self, Option.some_bind,
    ws1_exact hwne hw (by simp [headFails, quote_not_ws hq]), Option.some_bind, hscan]
  rfl

theorem matchImportFrom_exp (l : List Char) : matchImportFrom (expKw ++ l) = none := rfl

theorem matchSideEffect_exp (l : List Char) : matchSideEffect (expKw ++ l) = none := rfl

theorem matchSideEffect_impSide {w nm t : List Char} {q q2 : Char}
    (hwne : w ≠ []) (hw : w.all isWs = true) (hq : isQuote q = true)
    (hnmne : nm ≠ []) (hnm : nm.all (fun c => !isQuote c) = true)
    (hq2 : isQuote q2 = true) :
    matchSideEffect (impKw ++ (w ++ (q :: (nm ++ (q2 :: (';' :: t)))))) = some ([], t) := by
  unfold matchSideEffect
  rw [lit_self, Option.some_bind,
    ws1_exact hwne hw (by simp [headFails, quote_not_ws hq]), Option.some_bind,
    quote1_cons hq, Option.some_bind,
    nonQuote1_exact hnmne hnm hq2, Option.some_bind,
    quote1_cons hq2, Option.map_some']
  simp [semiOpt]

theorem matchExportDefault_expDef {w w2 t : List Char}
    (hwne : w ≠ []) (hw : w.all isWs = true) (h2ne : w2 ≠ []) (h2 : w2.all isWs = true)
    (ht : headNotWs t = true) :
    matchExportDefault (expKw ++ (w ++ ("default".data ++ (w2 ++ t)))) = some ([], t) := by
  unfold matchExportDefault
  rw [lit_self, Option.some_bind, ws1_exact hwne hw (by rfl), Option.some_bind,
    lit_self, Option.some_bind, ws1_exact h2ne h2 ht, Option.map_some']

theorem matchExportDefault_expDecl {w kw t : List Char}
    (hwne : w ≠ []) (hw : w.all isWs = true) (hkw : kw ∈ declKws) :
    matchExportDefault (expKw ++ (w ++ (kw ++ t))) = none := by
  simp only [declKws, List.mem_cons, List.not_mem_nil, or_false] at hkw
  unfold matchExportDefault
  rcases hkw with rfl | rfl | rfl | rfl | rfl | rfl <;>
    rw [lit_self, Option.some_bind, ws1_exact hwne hw (by rfl), Option.some_bind] <;> rfl

theorem matchExportDecl_expDecl {w kw t : List Char}
    (hwne : w ≠ []) (hw : w.all isWs = true) (hkw : kw ∈ declKws) :
    matchExportDecl (expKw ++ (w ++ (kw ++ t))) = some (kw, t) := by
  simp only [declKws, List.mem_cons, List.not_mem_nil, or_false] at hkw
  unfold matchExportDecl
  rcases hkw with rfl | rfl | rfl | rfl | rfl | rfl <;>
    rw [lit_self, Option.some_bind, ws1_exact hwne hw (by rfl), Option.some_bind] <;> rfl

theorem renderDoc_cons (st : Seg → List Char) (s : Seg) (rest : List Seg) :
    renderDoc st (s :: rest) = st s ++ renderDoc st rest := by
  simp [renderDoc]

/-- A global replacement pass acts segmentwise once each piece is either inert
    or matched exactly at its head. -/
theorem pass_over {m : List Char → Option (List Char × List Char)}
    (hm : Consumes m) (stIn stOut : Seg → List Char) :
    ∀ segs, PassOK m stIn stOut segs →
      replaceAll m (renderDoc stIn segs) = renderDoc stOut segs := by
  intro segs
  induction segs with
  | nil => intro _; rfl
  | cons s rest ih =>
    intro h
    obtain ⟨hs, hrest⟩ := h
    rw [renderDoc_cons, renderDoc_cons]
    cases hs with
    | inl hin => rw [scan_skip2 (stIn s) (renderDoc stIn rest) hin.2, ih hrest, hin.1]
    | inr hmatch => rw [replaceAll_match hm hmatch, ih hrest]

theorem pass1OK : ∀ segs, segsWF segs = true → clean1 segs = true →
    PassOK matchImportFrom segRender segStage1 segs := by
  intro segs
  induction segs with
  | nil => intro _ _; trivial
  | cons s rest ih =>
    intro hwf hc
    have hwfp : segWF s = true ∧ List.all rest segWF = true := by
      simpa [segsWF, List.all_cons] using hwf
    cases s with
    | txt t =>
      have hc2 : (kwFreeBefore t.length (t ++ renderDoc segRender rest) &&
          clean1 rest) = true := hc
      rw [Bool.and_eq_true] at hc2
      exact ⟨Or.inl ⟨rfl, inert_of_kwFree matchImportFrom_kw hc2.1⟩, ih hwfp.2 hc2.2⟩
    | impFrom w mid w2 nm q q2 =>
      have hc2 : (fromFreeBefore mid.length
          (mid ++ ("from".data ++ (w2 ++ (q :: (nm ++ (q2 :: (';' :: renderDoc segRender rest))))))) &&
          clean1 rest) = true := hc
      rw [Bool.and_eq_true] at hc2
      have hwfs := hwfp.1
      simp only [segWF, Bool.and_eq_true, decide_eq_true_eq] at hwfs
      obtain ⟨⟨⟨⟨⟨⟨⟨⟨hA, hB⟩, hC⟩, hD⟩, hE⟩, hF⟩, hG⟩, hH⟩, hI⟩ := hwfs
      refine ⟨Or.inr ?_, ih hwfp.2 hc2.2⟩
      have hscan := fromFreeBefore_spec hc2.1
      simp only [segRender, segStage1, List.append_assoc, List.cons_append,
        List.singleton_append]
      exact matchImportFrom_impFrom hA hB hC hscan hD hE hF hG hH hI
    | impSide w nm q q2 =>
      have hc2 : (((scanFrom (q :: (nm ++ (q2 :: (';' :: renderDoc segRender rest))))).isNone &&
          tailKwFree (segRender (Seg.impSide w nm q q2)) (renderDoc segRender rest)) &&
          clean1 rest) = true := hc
      rw [Bool.and_eq_true, Bool.and_eq_true, Option.isNone_iff_eq_none] at hc2
      have hwfs := hwfp.1
      simp only [segWF, Bool.and_eq_true, decide_eq_true_eq] at hwfs
      obtain ⟨⟨⟨⟨⟨hA, hB⟩, hC⟩, hD⟩, hE⟩, hF⟩ := hwfs
      refine ⟨Or.inl ⟨rfl, ?_⟩, ih hwfp.2 hc2.2⟩
      have h0 : matchImportFrom
          (segRender (Seg.impSide w nm q q2) ++ renderDoc segRender rest) = none := by
        simp only [segRender, List.append_assoc, List.cons_append, List.singleton_append]
        exact matchImportFrom_impSide hA hB hC hc2.1.1
      exact inert_of_head_tail matchImportFrom_kw h0 hc2.1.2
    | expDef w w2 =>
      have hc2 : (tailKwFree (segRender (Seg.expDef w w2)) (renderDoc segRender rest) &&
          clean1 rest) = true := hc
      rw [Bool.and_eq_true] at hc2
      refine ⟨Or.inl ⟨rfl, ?_⟩, ih hwfp.2 hc2.2⟩
      have h0 : matchImportFrom
          (segRender (Seg.expDef w w2) ++ renderDoc segRender rest) = none := by
        simp only [segRender, List.append_assoc]
        exact matchImportFrom_exp _
      exact inert_of_head_tail matchImportFrom_kw h0 hc2.1
    | expDecl w kw =>
      have hc2 : (tailKwFree (segRender (Seg.expDecl w kw)) (renderDoc segRender rest) &&
          clean1 rest) = true := hc
      rw [Bool.and_eq_true] at hc2
      refine ⟨Or.inl ⟨rfl, ?_⟩, ih hwfp.2 hc2.2⟩
      have h0 : matchImportFrom
          (segRender (Seg.expDecl w kw) ++ renderDoc segRender rest) = none := by
        simp only [segRender, List.append_assoc]
        exact matchImportFrom_exp _
      exact inert_of_head_tail matchImportFrom_kw h0 hc2.1

theorem pass2OK : ∀ segs, segsWF segs = true → clean2 segs = true →
    PassOK matchSideEffect segStage1 segStage2 segs := by
  intro segs
  induction segs with
  | nil => intro _ _; trivial
  | cons s rest ih =>
    intro hwf hc
    have hwfp : segWF s = true ∧ List.all rest segWF = true := by
      simpa [segsWF, List.all_cons] using hwf
    cases s with
    | txt t =>
      have hc2 : (kwFreeBefore t.length (t ++ renderDoc segStage1 rest) &&
          clean2 rest) = true := hc
      rw [Bool.and_eq_true] at hc2
      exact ⟨Or.inl ⟨rfl, inert_of_kwFree matchSideEffect_kw hc2.1⟩, ih hwfp.2 hc2.2⟩
    | impFrom w mid w2 nm q q2 =>
      have hc2 : (true && clean2 rest) = true := hc
      rw [Bool.and_eq_true] at hc2
      exact ⟨Or.inl ⟨rfl, fun j hj => absurd hj (Nat.not_lt_zero j)⟩, ih hwfp.2 hc2.2⟩
    | impSide w nm q q2 =>
      have hc2 : (true && clean2 rest) = true := hc
      rw [Bool.and_eq_true] at hc2
      have hwfs := hwfp.1
      simp only [segWF, Bool.and_eq_true, decide_eq_true_eq] at hwfs
      obtain ⟨⟨⟨⟨⟨hA, hB⟩, hC⟩, hD⟩, hE⟩, hF⟩ := hwfs
      refine ⟨Or.inr ?_, ih hwfp.2 hc2.2⟩
      simp only [segStage1, segStage2, segRender, List.append_assoc,
        List.cons_append, List.singleton_append]
      exact matchSideEffect_impSide hA hB hC hD hE hF
    | expDef w w2 =>
      have hc2 : (tailKwFree (segRender (Seg.expDef w w2)) (renderDoc segStage1 rest) &&
          clean2 rest) = true := hc
      rw [Bool.and_eq_true] at hc2
      refine ⟨Or.inl ⟨rfl, ?_⟩, ih hwfp.2 hc2.2⟩
      have h0 : matchSideEffect
          (segRender (Seg.expDef w w2) ++ renderDoc segStage1 rest) = none := by
        simp only [segRender, List.append_assoc]
        exact matchSideEffect_exp _
      exact inert_of_head_tail matchSideEffect_kw h0 hc2.1
    | expDecl w kw =>
      have hc2 : (tailKwFree (segRender (Seg.expDecl w kw)) (renderDoc segStage1 rest) &&
          clean2 rest) = true := hc
      rw [Bool.and_eq_true] at hc2
      refine ⟨Or.inl ⟨rfl, ?_⟩, ih hwfp.2 hc2.2⟩
      have h0 : matchSideEffect
          (segRender (Seg.expDecl w kw) ++ renderDoc segStage1 rest) = none := by
        simp only [segRender, List.append_assoc]
        exact matchSideEffect_exp _
      exact inert_of_head_tail matchSideEffect_kw h0 hc2.1

theorem pass3OK : ∀ segs, segsWF segs = true → clean3 segs = true →
    PassOK matchExportDefault segStage2 segStage3 segs := by
  intro segs
  induction segs with
  | nil => intro _ _; trivial
  | cons s rest ih =>
    intro hwf hc
    have hwfp : segWF s = true ∧ List.all rest segWF = true := by
      simpa [segsWF, List.all_cons] using hwf
    cases s with
    | txt t =>
      have hc2 : (kwFreeBefore t.length (t ++ renderDoc segStage2 rest) &&
          clean3 rest) = true := hc
      rw [Bool.and_eq_true] at hc2
      exact ⟨Or.inl ⟨rfl, inert_of_kwFree matchExportDefault_kw hc2.1⟩, ih hwfp.2 hc2.2⟩
    | impFrom w mid w2 nm q q2 =>
      have hc2 : (true && clean3 rest) = true := hc
      rw [Bool.and_eq_true] at hc2
      exact ⟨Or.inl ⟨rfl, fun j hj => absurd hj (Nat.not_lt_zero j)⟩, ih hwfp.2 hc2.2⟩
    | impSide w nm q q2 =>
      have hc2 : (true && clean3 rest) = true := hc
      rw [Bool.and_eq_true] at hc2
      exact ⟨Or.inl ⟨rfl, fun j hj => absurd hj (Nat.not_lt_zero j)⟩, ih hwfp.2 hc2.2⟩
    | expDef w w2 =>
      have hc2 : (headNotWs (renderDoc segStage2 rest) && clean3 rest) = true := hc
      rw [Bool.and_eq_true] at hc2
      have hwfs := hwfp.1
      simp only [segWF, Bool.and_eq_true, decide_eq_true_eq] at hwfs
      obtain ⟨⟨⟨hA, hB⟩, hC⟩, hD⟩ := hwfs
      refine ⟨Or.inr ?_, ih hwfp.2 hc2.2⟩
      simp only [segStage2, segStage3, segRender, List.append_assoc]
      exact matchExportDefault_expDef hA hB hC hD hc2.1
    | expDecl w kw =>
      have hc2 : (tailKwFree (segRender (Seg.expDecl w kw)) (renderDoc segStage2 rest) &&
          clean3 rest) = true := hc
      rw [Bool.and_eq_true] at hc2
      have hwfs := hwfp.1
      simp only [segWF, Bool.and_eq_true, decide_eq_true_eq] at hwfs
      obtain ⟨⟨hA, hB⟩, hC⟩ := hwfs
      refine ⟨Or.inl ⟨rfl, ?_⟩, ih hwfp.2 hc2.2⟩
      have h0 : matchExportDefault
          (segRender (Seg.expDecl w kw) ++ renderDoc segStage2 rest) = none := by
        simp only [segRender, List.append_assoc]
        exact matchExportDefault_expDecl hA hB hC
      exact inert_of_head_tail matchExportDefault_kw h0 hc2.1

theorem pass4OK : ∀ segs, segsWF segs = true → clean4 segs = true →
    PassOK matchExportDecl segStage3 segStage4 segs := by
  intro segs
  induction segs with
  | nil => intro _ _; trivial
  | cons s rest ih =>
    intro hwf hc
    have hwfp : segWF s = true ∧ List.all rest segWF = true := by
      simpa [segsWF, List.all_cons] using hwf
    cases s with
    | txt t =>
      have hc2 : (kwFreeBefore t.length (t ++ renderDoc segStage3 rest) &&
          clean4 rest) = true := hc
      rw [Bool.and_eq_true] at hc2
      exact ⟨Or.inl ⟨rfl, inert_of_kwFree matchExportDecl_kw hc2.1⟩, ih hwfp.2 hc2.2⟩
    | impFrom w mid w2 nm q q2 =>
      have hc2 : (true && clean4 rest) = true := hc
      rw [Bool.and_eq_true] at hc2
      exact ⟨Or.inl ⟨rfl, fun j hj => absurd hj (Nat.not_lt_zero j)⟩, ih hwfp.2 hc2.2⟩
    | impSide w nm q q2 =>
      have hc2 : (true && clean4 rest) = true := hc
      rw [Bool.and_eq_true] at hc2
      exact ⟨Or.inl ⟨rfl, fun j hj => absurd hj (Nat.not_lt_zero j)⟩, ih hwfp.2 hc2.2⟩
    | expDef w w2 =>
      have hc2 : (true && clean4 rest) = true := hc
      rw [Bool.and_eq_true] at hc2
      exact ⟨Or.inl ⟨rfl, fun j hj => absurd hj (Nat.not_lt_zero j)⟩, ih hwfp.2 hc2.2⟩
    | expDecl w kw =>
      have hc2 : (true && clean4 rest) = true := hc
      rw [Bool.and_eq_true] at hc2
      have hwfs := hwfp.1
      simp only [segWF, Bool.and_eq_true, decide_eq_true_eq] at hwfs
      obtain ⟨⟨hA, hB⟩, hC⟩ := hwfs
      refine ⟨Or.inr ?_, ih hwfp.2 hc2.2⟩
      simp only [segStage3, segStage4, segRender, List.append_assoc]
      exact matchExportDecl_expDecl hA hB hC

/-- Claim C1, amended: over every well-formed segment document — arbitrary
    keyword-free text pieces around arbitrary import-from declarations,
    side-effect imports, export-default prefixes and exported declarations
    with any of the six keywords const, function, class, interface, type and
    enum — whose pieces are positionally clean for the four passes, the full
    rewrite pipeline deletes every import declaration and every export-default
    prefix and strips the export qualifier and its following whitespace from
    every exported declaration, leaving the surrounding text unchanged. -/
theorem claim_C1_amended (segs : List Seg) (hwf : segsWF segs = true)
    (h1 : clean1 segs = true) (h2 : clean2 segs = true)
    (h3 : clean3 segs = true) (h4 : clean4 segs = true) :
    rewriteCodeP (renderDoc segRender segs) = renderDoc segStage4 segs := by
  unfold rewriteCodeP
  rw [pass_over matchImportFrom_con segRender segStage1 segs (pass1OK segs hwf h1),
    pass_over matchSideEffect_con segStage1 segStage2 segs (pass2OK segs hwf h2),
    pass_over matchExportDefault_con segStage2 segStage3 segs (pass3OK segs hwf h3),
    pass_over matchExportDecl_con segStage3 segStage4 segs (pass4OK segs hwf h4)]

/-- Witness for the amended claim C1 at a document exercising every segment
    form and all six declaration keywords of the alternation. -/
theorem claim_C1_amended_witness :
    segsWF wSegs = true ∧
    rewriteCodeP (renderDoc segRender wSegs) = renderDoc segStage4 wSegs :=
  ⟨by decide, claim_C1_amended wSegs (by decide) (by decide) (by decide)
    (by decide) (by decide)⟩

/-- Claim C1 is false as stated: the export-stripping alternation omits let
    and var, so an export let declaration passes through the whole pipeline
    unchanged and keeps its export qualifier on a top-level declaration; and
    outside clean contexts a deletion can splice a new export qualifier
    together out of surrounding text, as in export export const, so the
    positional cleanliness restrictions of the amendment are necessary. -/
theorem claim_C1_counterexample :
    rewriteCodeP "export let x = 1;".data = "export let x = 1;".data ∧
    specExportQualifier "export let x = 1;".data = true ∧
    specExportQualifier (rewriteCodeP "export let x = 1;".data) = true ∧
    rewriteCodeP "export export const x = 1;".data = "export const x = 1;".data ∧
    specExportQualifier (rewriteCodeP "export export const x = 1;".data) = true :=
  ⟨rfl, rfl, rfl, rfl, rfl⟩

/-- The accumulator loop of the pybind11 page computes the flattened block
    list and the failure count. -/
theorem bundleLoopP_eq (o : FetchOracle) :
    ∀ (fs : List (List Char)) (acc : List Char) (w : Nat),
      bundleLoopP o fs acc w =
        (acc ++ (fs.map (blockOfP o)).flatten,
         w + fs.countP (fun f => (o.files f).isNone)) := by
  intro fs
  induction fs with
  | nil => intro acc w; simp [bundleLoopP]
  | cons f fs ih =>
    intro acc w
    cases hf : o.files f with
    | some code =>
      simp only [bundleLoopP, hf]
      rw [ih]
      simp [blockOfP, hf, List.countP_cons, List.append_assoc]
    | none =>
      simp only [bundleLoopP, hf]
      rw [ih]
      simp [blockOfP, hf, List.countP_cons, List.append_assoc]
      omega

theorem bundleLoopM_eq (o : FetchOracle) :
    ∀ (fs : List (List Char)) (acc : List Char) (w : Nat),
      bundleLoopM o fs acc w =
        (acc ++ (fs.map (blockOfM o)).flatten,
         w + fs.countP (fun f => (o.files f).isNone)) := by
  intro fs
  induction fs with
  | nil => intro acc w; simp [bundleLoopM]
  | cons f fs ih =>
    intro acc w
    cases hf : o.files f with
    | some code =>
      simp only [bundleLoopM, hf]
      rw [ih]
      simp [blockOfM, hf, List.countP_cons, List.append_assoc]
    | none =>
      simp only [bundleLoopM, hf]
      rw [ih]
      simp [blockOfM, hf, List.countP_cons, List.append_assoc]
      omega

theorem combinedCodeP_eq (o : FetchOracle) :
    combinedCodeP o =
      (masterImportsP ++ (filesToBundle.map (blockOfP o)).flatten,
       filesToBundle.countP (fun f => (o.files f).isNone)) := by
  unfold combinedCodeP
  rw [bundleLoopP_eq]
  simp

theorem combinedCodeM_eq (o : FetchOracle) :
    combinedCodeM o =
      (masterImportsM ++ (filesToBundle.map (blockOfM o)).flatten,
       filesToBundle.countP (fun f => (o.files f).isNone)) := by
  unfold combinedCodeM
  rw [bundleLoopM_eq]
  simp

/-- Claim C9: on every input text, the four-step regex pipeline of the pybind11
    page bundler and the four-step regex pipeline of the memory-pool page
    bundler produce the same output. -/
theorem claim_C9_same_rewrite :
    ∀ code : List Char, rewriteCodeP code = rewriteCodeM code :=
  fun _ => rfl

/-- Claim C6: while the downloading flag is set, a second invocation of either
    download handler is a no-op: it fetches nothing, creates no zip entry,
    saves nothing, raises no alert, and leaves the flag as it was. -/
theorem claim_C6_reentrancy (o : FetchOracle) :
    handleDownloadP true o = ⟨[], none, 0, 0, false, [], true⟩ ∧
    handleDownloadM true o = ⟨[], none, 0, 0, false, [], true⟩ :=
  ⟨rfl, rfl⟩

/-- Claim C2: when the base page document fetch fails, both handlers produce no
    zip entry and no save, raise exactly one alert, attempt no manifest fetch,
    and reset the downloading state to idle. -/
theorem claim_C2_fatal (o : FetchOracle) (h : o.html = none) :
    handleDownloadP false o = ⟨[], none, 1, 0, true, [], false⟩ ∧
    handleDownloadM false o = ⟨[], none, 1, 0, true, [], false⟩ := by
  constructor <;> simp [handleDownloadP, handleDownloadM, h]

/-- Witness for claim C2 at a concrete failing oracle. -/
theorem claim_C2_fatal_witness :
    oracleFail.html = none ∧
    handleDownloadP false oracleFail = ⟨[], none, 1, 0, true, [], false⟩ ∧
    handleDownloadM false oracleFail = ⟨[], none, 1, 0, true, [], false⟩ :=
  ⟨rfl, (claim_C2_fatal oracleFail rfl).1, (claim_C2_fatal oracleFail rfl).2⟩

/-- Claim C7: the outcome of an invocation is a function of the fetched base
    document and the fetched manifest contents alone, in both page variants;
    nothing else, and in particular no varying datum, enters the produced
    archive. -/
theorem claim_C7_deterministic (o1 o2 : FetchOracle)
    (hh : o1.html = o2.html)
    (hf : ∀ f ∈ filesToBundle, o1.files f = o2.files f) :
    handleDownloadP false o1 = handleDownloadP false o2 ∧
    handleDownloadM false o1 = handleDownloadM false o2 := by
  have hmapP : filesToBundle.map (blockOfP o1) = filesToBundle.map (blockOfP o2) :=
    List.map_congr_left (fun f hmem => by simp [blockOfP, hf f hmem])
  have hmapM : filesToBundle.map (blockOfM o1) = filesToBundle.map (blockOfM o2) :=
    List.map_congr_left (fun f hmem => by simp [blockOfM, hf f hmem])
  have hcount : filesToBundle.countP (fun f => ((o1.files f).isNone : Bool)) =
      filesToBundle.countP (fun f => ((o2.files f).isNone : Bool)) := by
    apply List.countP_congr
    intro f hmem
    simp [hf f hmem]
  have hcP : combinedCodeP o1 = combinedCodeP o2 := by
    rw [combinedCodeP_eq, combinedCodeP_eq, hmapP, hcount]
  have hcM : combinedCodeM o1 = combinedCodeM o2 := by
    rw [combinedCodeM_eq, combinedCodeM_eq, hmapM, hcount]
  cases h2 : o2.html with
  | none =>
    rw [h2] at hh
    constructor <;> simp [handleDownloadP, handleDownloadM, hh, h2]
  | some hdoc =>
    rw [h2] at hh
    constructor <;> simp [handleDownloadP, handleDownloadM, hh, h2, hcP, hcM]

/-- Witness for claim C7: two oracles agreeing on the base document and the
    manifest paths while disagreeing elsewhere give identical outcomes. -/
theorem claim_C7_deterministic_witness :
    oracleOk.html = oracleOk2.html ∧
    (∀ f ∈ filesToBundle, oracleOk.files f = oracleOk2.files f) ∧
    oracleOk.files "other.ts".data ≠ oracleOk2.files "other.ts".data ∧
    handleDownloadP false oracleOk = handleDownloadP false oracleOk2 ∧
    handleDownloadM false oracleOk = handleDownloadM false oracleOk2 :=
  ⟨rfl, by decide, by decide,
   (claim_C7_deterministic oracleOk oracleOk2 rfl (by decide)).1,
   (claim_C7_deterministic oracleOk oracleOk2 rfl (by decide)).2⟩

/-- Claim C4: when every manifest fetch succeeds, the combined code equals the
    master preamble followed by each rewritten document in manifest order,
    each preceded by its source-origin marker block carrying its path, and
    exactly this combined code is wrapped into the inline script injected into
    the archived document, in both page variants. -/
theorem claim_C4_order (o : FetchOracle) (hdoc c1 c2 c3 c4 c5 : List Char)
    (hh : o.html = some hdoc)
    (h1 : o.files "types.ts".data = some c1)
    (h2 : o.files "components/QuantumScene.tsx".data = some c2)
    (h3 : o.files "components/Diagrams.tsx".data = some c3)
    (h4 : o.files "App.tsx".data = some c4)
    (h5 : o.files "index.tsx".data = some c5) :
    (combinedCodeP o).1 =
      masterImportsP ++
        (srcBlock "types.ts".data (rewriteCodeP c1) ++
         (srcBlock "components/QuantumScene.tsx".data (rewriteCodeP c2) ++
          (srcBlock "components/Diagrams.tsx".data (rewriteCodeP c3) ++
           (srcBlock "App.tsx".data (rewriteCodeP c4) ++
            srcBlock "index.tsx".data (rewriteCodeP c5))))) ∧
    (combinedCodeM o).1 =
      masterImportsM ++
        (srcBlock "types.ts".data (rewriteCodeM c1) ++
         (srcBlock "components/QuantumScene.tsx".data (rewriteCodeM c2) ++
          (srcBlock "components/Diagrams.tsx".data (rewriteCodeM c3) ++
           (srcBlock "App.tsx".data (rewriteCodeM c4) ++
            srcBlock "index.tsx".data (rewriteCodeM c5))))) ∧
    (handleDownloadP false o).zipEntries =
      [(indexName,
        injectScripts hdoc (babelScript ++ "\n".data ++ mainScript (combinedCodeP o).1)),
       (readmeName, readmeP)] ∧
    (handleDownloadM false o).zipEntries =
      [(indexName,
        injectScripts hdoc (babelScript ++ "\n".data ++ mainScript (combinedCodeM o).1)),
       (readmeName, readmeM)] := by
  refine ⟨?_, ?_, ?_, ?_⟩
  · rw [combinedCodeP_eq]
    simp [filesToBundle, blockOfP, h1, h2, h3, h4, h5]
  · rw [combinedCodeM_eq]
    simp [filesToBundle, blockOfM, h1, h2, h3, h4, h5]
  · simp [handleDownloadP, hh]
  · simp [handleDownloadM, hh]

/-- Witness for claim C4 at a concrete all-success oracle. -/
theorem claim_C4_order_witness :
    oracleOk.html = some "<p></body>".data ∧
    ((combinedCodeP oracleOk).1 =
      masterImportsP ++
        (srcBlock "types.ts".data (rewriteCodeP "let a = 0;".data) ++
         (srcBlock "components/QuantumScene.tsx".data (rewriteCodeP "let a = 0;".data) ++
          (srcBlock "components/Diagrams.tsx".data (rewriteCodeP "let a = 0;".data) ++
           (srcBlock "App.tsx".data (rewriteCodeP "let a = 0;".data) ++
            srcBlock "index.tsx".data (rewriteCodeP "let a = 0;".data))))) ∧
     (combinedCodeM oracleOk).1 =
      masterImportsM ++
        (srcBlock "types.ts".data (rewriteCodeM "let a = 0;".data) ++
         (srcBlock "components/QuantumScene.tsx".data (rewriteCodeM "let a = 0;".data) ++
          (srcBlock "components/Diagrams.tsx".data (rewriteCodeM "let a = 0;".data) ++
           (srcBlock "App.tsx".data (rewriteCodeM "let a = 0;".data) ++
            srcBlock "index.tsx".data (rewriteCodeM "let a = 0;".data))))) ∧
     (handleDownloadP false oracleOk).zipEntries =
      [(indexName,
        injectScripts "<p></body>".data
          (babelScript ++ "\n".data ++ mainScript (combinedCodeP oracleOk).1)),
       (readmeName, readmeP)] ∧
     (handleDownloadM false oracleOk).zipEntries =
      [(indexName,
        injectScripts "<p></body>".data
          (babelScript ++ "\n".data ++ mainScript (combinedCodeM oracleOk).1)),
       (readmeName, readmeM)]) :=
  ⟨rfl, claim_C4_order oracleOk "<p></body>".data _ _ _ _ _ rfl rfl rfl rfl rfl rfl⟩

/-- Claim C3, amended: a failing manifest fetch never aborts the operation: in
    both page variants the combined code is exactly the master preamble
    followed, in manifest order, by the rewritten source block of every
    succeeding file and the placeholder comment of every failing file — so the
    failing path receives its placeholder while all other files are bundled
    normally — and an archive is still saved; the pybind11 page logs exactly
    one console warning per failing manifest fetch, while the memory-pool
    page's catch branch logs nothing. -/
theorem claim_C3_amended (o : FetchOracle) (hdoc f : List Char)
    (hh : o.html = some hdoc) (hmem : f ∈ filesToBundle)
    (hfail : o.files f = none) :
    (combinedCodeP o).1 =
      masterImportsP ++
        (filesToBundle.map (fun g =>
          match o.files g with
          | some c => srcBlock g (rewriteCodeP c)
          | none => errBlock g)).flatten ∧
    (combinedCodeM o).1 =
      masterImportsM ++
        (filesToBundle.map (fun g =>
          match o.files g with
          | some c => srcBlock g (rewriteCodeM c)
          | none => errBlock g)).flatten ∧
    (∃ u v, (combinedCodeP o).1 = u ++ (errBlock f ++ v)) ∧
    (∃ u v, (combinedCodeM o).1 = u ++ (errBlock f ++ v)) ∧
    (handleDownloadP false o).savedAs = some zipNameP ∧
    (handleDownloadM false o).savedAs = some zipNameM ∧
    (handleDownloadP false o).warnings =
      filesToBundle.countP (fun g => (o.files g).isNone) ∧
    1 ≤ (handleDownloadP false o).warnings ∧
    (handleDownloadM false o).warnings = 0 := by
  obtain ⟨l1, l2, hsplit⟩ := List.append_of_mem hmem
  have hcount : 0 < filesToBundle.countP (fun g => ((o.files g).isNone : Bool)) :=
    List.countP_pos_iff.mpr ⟨f, hmem, by simp [hfail]⟩
  have hwP : (handleDownloadP false o).warnings =
      filesToBundle.countP (fun g => ((o.files g).isNone : Bool)) := by
    have h1 : (handleDownloadP false o).warnings = (combinedCodeP o).2 := by
      simp [handleDownloadP, hh]
    rw [h1, combinedCodeP_eq]
  refine ⟨?_, ?_, ?_, ?_, ?_, ?_, hwP, ?_, ?_⟩
  · rw [combinedCodeP_eq]; rfl
  · rw [combinedCodeM_eq]; rfl
  · refine ⟨masterImportsP ++ (l1.map (blockOfP o)).flatten,
      (l2.map (blockOfP o)).flatten, ?_⟩
    rw [combinedCodeP_eq]
    simp only [hsplit, List.map_append, List.map_cons, List.flatten_append,
      List.flatten_cons, blockOfP, hfail, List.append_assoc]
  · refine ⟨masterImportsM ++ (l1.map (blockOfM o)).flatten,
      (l2.map (blockOfM o)).flatten, ?_⟩
    rw [combinedCodeM_eq]
    simp only [hsplit, List.map_append, List.map_cons, List.flatten_append,
      List.flatten_cons, blockOfM, hfail, List.append_assoc]
  · simp [handleDownloadP, hh]
  · simp [handleDownloadM, hh]
  · rw [hwP]; exact hcount
  · simp [handleDownloadM, hh]

/-- Witness for the amended claim C3 at an oracle with one failing manifest
    fetch. -/
theorem claim_C3_amended_witness :
    oracleOneFail.files "types.ts".data = none ∧
    ((combinedCodeP oracleOneFail).1 =
       masterImportsP ++
         (filesToBundle.map (fun g =>
           match oracleOneFail.files g with
           | some c => srcBlock g (rewriteCodeP c)
           | none => errBlock g)).flatten ∧
     (combinedCodeM oracleOneFail).1 =
       masterImportsM ++
         (filesToBundle.map (fun g =>
           match oracleOneFail.files g with
           | some c => srcBlock g (rewriteCodeM c)
           | none => errBlock g)).flatten ∧
     (∃ u v, (combinedCodeP oracleOneFail).1 = u ++ (errBlock "types.ts".data ++ v)) ∧
     (∃ u v, (combinedCodeM oracleOneFail).1 = u ++ (errBlock "types.ts".data ++ v)) ∧
     (handleDownloadP false oracleOneFail).savedAs = some zipNameP ∧
     (handleDownloadM false oracleOneFail).savedAs = some zipNameM ∧
     (handleDownloadP false oracleOneFail).warnings =
       filesToBundle.countP (fun g => (oracleOneFail.files g).isNone) ∧
     1 ≤ (handleDownloadP false oracleOneFail).warnings ∧
     (handleDownloadM false oracleOneFail).warnings = 0) :=
  ⟨rfl, claim_C3_amended oracleOneFail "<p></body>".data "types.ts".data rfl
    (by decide) rfl⟩

/-- Claim C3 is false as stated for the memory-pool page: its per-file catch
    branch logs nothing, so a failing manifest fetch produces zero console
    warnings even though the operation continues and an archive is saved. -/
theorem claim_C3_counterexample :
    oracleAllFail.files "types.ts".data = none ∧
    (handleDownloadM false oracleAllFail).savedAs = some zipNameM ∧
    (handleDownloadM false oracleAllFail).warnings = 0 :=
  ⟨rfl, rfl, rfl⟩

/-- Claim C10: whenever the base document fetch succeeds the operation runs to
    completion and saves an archive, whatever the manifest fetches do; if every
    manifest fetch fails, the combined code is exactly the master preamble
    followed by one placeholder comment per manifest path, in manifest order,
    in both page variants. -/
theorem claim_C10_resilience (o : FetchOracle) (hdoc : List Char)
    (hh : o.html = some hdoc) :
    (handleDownloadP false o).savedAs = some zipNameP ∧
    (handleDownloadM false o).savedAs = some zipNameM ∧
    ((∀ f ∈ filesToBundle, o.files f = none) →
      (combinedCodeP o).1 =
        masterImportsP ++
          (errBlock "types.ts".data ++
           (errBlock "components/QuantumScene.tsx".data ++
            (errBlock "components/Diagrams.tsx".data ++
             (errBlock "App.tsx".data ++ errBlock "index.tsx".data)))) ∧
      (combinedCodeM o).1 =
        masterImportsM ++
          (errBlock "types.ts".data ++
           (errBlock "components/QuantumScene.tsx".data ++
            (errBlock "components/Diagrams.tsx".data ++
             (errBlock "App.tsx".data ++ errBlock "index.tsx".data))))) := by
  refine ⟨by simp [handleDownloadP, hh], by simp [handleDownloadM, hh], ?_⟩
  intro hf
  have e1 := hf "types.ts".data (by simp [filesToBundle])
  have e2 := hf "components/QuantumScene.tsx".data (by simp [filesToBundle])
  have e3 := hf "components/Diagrams.tsx".data (by simp [filesToBundle])
  have e4 := hf "App.tsx".data (by simp [filesToBundle])
  have e5 := hf "index.tsx".data (by simp [filesToBundle])
  constructor
  · rw [combinedCodeP_eq]
    simp [filesToBundle, blockOfP, e1, e2, e3, e4, e5]
  · rw [combinedCodeM_eq]
    simp [filesToBundle, blockOfM, e1, e2, e3, e4, e5]

/-- Witness for claim C10 at an oracle where the base fetch succeeds and every
    manifest fetch fails. -/
theorem claim_C10_resilience_witness :
    oracleAllFail.html = some "<html><body>x</body></html>".data ∧
    ((handleDownloadP false oracleAllFail).savedAs = some zipNameP ∧
     (handleDownloadM false oracleAllFail).savedAs = some zipNameM ∧
     ((∀ f ∈ filesToBundle, oracleAllFail.files f = none) →
      (combinedCodeP oracleAllFail).1 =
        masterImportsP ++
          (errBlock "types.ts".data ++
           (errBlock "components/QuantumScene.tsx".data ++
            (errBlock "components/Diagrams.tsx".data ++
             (errBlock "App.tsx".data ++ errBlock "index.tsx".data)))) ∧
      (combinedCodeM oracleAllFail).1 =
        masterImportsM ++
          (errBlock "types.ts".data ++
           (errBlock "components/QuantumScene.tsx".data ++
            (errBlock "components/Diagrams.tsx".data ++
             (errBlock "App.tsx".data ++ errBlock "index.tsx".data)))))) :=
  ⟨rfl, claim_C10_resilience oracleAllFail "<html><body>x</body></html>".data rfl⟩

theorem lit_nil_some {p r : List Char} (h : lit p [] = some r) :
    p = [] ∧ r = [] := by
  cases p with
  | nil => simp [lit] at h; simp [h]
  | cons x xs => simp [lit] at h

/-- Splitting at the first occurrence decomposes the text. -/
theorem splitFirst_eq {pat l pre post : List Char}
    (h : splitFirst pat l = some (pre, post)) : l = pre ++ (pat ++ post) := by
  induction l generalizing pre post with
  | nil =>
    simp only [splitFirst, Option.map_eq_some'] at h
    obtain ⟨r, hr, he⟩ := h
    obtain ⟨hp, hrr⟩ := lit_nil_some hr
    cases he
    simp [hp, hrr]
  | cons c cs ih =>
    simp only [splitFirst] at h
    split at h
    next r hr =>
      cases h
      simpa using lit_append hr
    next =>
      simp only [Option.map_eq_some'] at h
      obtain ⟨⟨p1, p2⟩, hsp, he⟩ := h
      cases he
      simp [ih hsp]

/-- A replacement free of dollar substitution patterns expands to itself. -/
theorem expand_id {matched pre post rep : List Char}
    (h : dollarSafe rep = true) :
    expandRepl matched pre post rep = rep := by
  induction rep with
  | nil => rfl
  | cons c cs ih =>
    have hsplit : dollarPairAt (c :: cs) = false ∧ dollarSafe cs = true := by
      simp only [dollarSafe, anyPos, Bool.not_eq_true', Bool.or_eq_false_iff] at h
      exact ⟨h.1, by simp [dollarSafe, h.2]⟩
    cases cs with
    | nil => rfl
    | cons d r =>
      by_cases hc : c = '$'
      · subst hc
        have hd : (d = '$' || d = '&' || d = '\x60' || d = '\x27') = false := by
          simpa [dollarPairAt] using hsplit.1
        simp only [Bool.or_eq_false_iff] at hd
        rw [expandRepl, if_pos rfl, if_neg (by simpa using hd.1.1.1),
          if_neg (by simpa using hd.1.1.2), if_neg (by simpa using hd.1.2),
          if_neg (by simpa using hd.2), ih hsplit.2]
      · rw [expandRepl, if_neg hc, ih hsplit.2]

/-- Claim C5, amended: provided the injected script text followed by the
    closing body tag contains no dollar substitution pattern, the script block
    is inserted immediately before the first closing body marker when one
    exists, leaving the rest of the base document unchanged, and is appended at
    the end otherwise. Replacement-pattern expansion applies otherwise. -/
theorem claim_C5_placement (html scripts : List Char)
    (hd : dollarSafe (scripts ++ "\n</body>".data) = true) :
    (∀ pre post, splitFirst bodyClose html = some (pre, post) →
      injectScripts html scripts = pre ++ (scripts ++ ("\n</body>".data ++ post)) ∧
      html = pre ++ (bodyClose ++ post)) ∧
    (splitFirst bodyClose html = none → injectScripts html scripts = html ++ scripts) := by
  constructor
  · intro pre post hsp
    have hinc : includesS html bodyClose = true := by
      simp [includesS, hsp]
    refine ⟨?_, splitFirst_eq hsp⟩
    simp only [injectScripts, hinc, if_pos, replaceFirstJS, hsp]
    rw [expand_id hd]
    simp [List.append_assoc]
  · intro hnone
    have hinc : includesS html bodyClose = false := by
      simp [includesS, hnone]
    simp [injectScripts, hinc]

/-- Witness for the amended claim C5 at a concrete document and script. -/
theorem claim_C5_placement_witness :
    dollarSafe ("XY".data ++ "\n</body>".data) = true ∧
    splitFirst bodyClose "<a></body><b>".data = some ("<a>".data, "<b>".data) ∧
    injectScripts "<a></body><b>".data "XY".data =
      "<a>".data ++ ("XY".data ++ ("\n</body>".data ++ "<b>".data)) ∧
    "<a></body><b>".data = "<a>".data ++ (bodyClose ++ "<b>".data) :=
  ⟨by decide, by decide,
   ((claim_C5_placement "<a></body><b>".data "XY".data (by decide)).1
      "<a>".data "<b>".data (by decide)).1,
   ((claim_C5_placement "<a></body><b>".data "XY".data (by decide)).1
      "<a>".data "<b>".data (by decide)).2⟩

/-- Claim C5 is false as stated: when the fetched file contents place a dollar
    quote pair into the script block, the ECMAScript replacement expansion of
    String.prototype.replace duplicates the document suffix instead of
    inserting the script text literally; the rest of the base document is then
    not preserved around the injected block. -/
theorem claim_C5_counterexample :
    injectScripts "A</body>B".data "$\x27".data = "AB\n</body>B".data ∧
    injectScripts "A</body>B".data
        (babelScript ++ ("\n".data ++ mainScript "$\x27".data)) ≠
      "A".data ++
        ((babelScript ++ ("\n".data ++ mainScript "$\x27".data)) ++
          ("\n</body>".data ++ "B".data)) :=
  ⟨by decide, by decide⟩

/-- Claim C8, amended: every successful invocation saves an archive with
    exactly the two entries index.html and README.md and a fixed file name,
    distinct per page variant; the pybind11 page README is static
    run-instructions text containing the example local-server commands, while
    the memory-pool page README is a static note that contains no local-server
    invocation command. -/
theorem claim_C8_archive (o : FetchOracle) (hdoc : List Char)
    (hh : o.html = some hdoc) :
    (handleDownloadP false o).zipEntries =
      [(indexName,
        injectScripts hdoc (babelScript ++ "\n".data ++ mainScript (combinedCodeP o).1)),
       (readmeName, readmeP)] ∧
    (handleDownloadM false o).zipEntries =
      [(indexName,
        injectScripts hdoc (babelScript ++ "\n".data ++ mainScript (combinedCodeM o).1)),
       (readmeName, readmeM)] ∧
    (handleDownloadP false o).savedAs = some zipNameP ∧
    (handleDownloadM false o).savedAs = some zipNameM ∧
    zipNameP ≠ zipNameM ∧
    specServerCommand readmeP = true ∧
    specServerCommand readmeM = false := by
  refine ⟨by simp [handleDownloadP, hh], by simp [handleDownloadM, hh],
    by simp [handleDownloadP, hh], by simp [handleDownloadM, hh],
    by decide, by decide, by decide⟩

/-- Witness for the amended claim C8 at a concrete all-success oracle. -/
theorem claim_C8_archive_witness :
    oracleOk.html = some "<p></body>".data ∧
    ((handleDownloadP false oracleOk).zipEntries =
      [(indexName,
        injectScripts "<p></body>".data
          (babelScript ++ "\n".data ++ mainScript (combinedCodeP oracleOk).1)),
       (readmeName, readmeP)] ∧
     (handleDownloadM false oracleOk).zipEntries =
      [(indexName,
        injectScripts "<p></body>".data
          (babelScript ++ "\n".data ++ mainScript (combinedCodeM oracleOk).1)),
       (readmeName, readmeM)] ∧
     (handleDownloadP false oracleOk).savedAs = some zipNameP ∧
     (handleDownloadM false oracleOk).savedAs = some zipNameM ∧
     zipNameP ≠ zipNameM ∧
     specServerCommand readmeP = true ∧
     specServerCommand readmeM = false) :=
  ⟨rfl, claim_C8_archive oracleOk "<p></body>".data rfl⟩

/-- Claim C8 is false as stated for the memory-pool page: its archive has the
    two fixed entries, but the README entry contains no example local-server
    invocation command. -/
theorem claim_C8_counterexample :
    (handleDownloadM false oracleAllFail).zipEntries.map Prod.fst =
      [indexName, readmeName] ∧
    ((handleDownloadM false oracleAllFail).zipEntries.map Prod.snd).getLast? =
      some readmeM ∧
    (handleDownloadM false oracleAllFail).savedAs = some zipNameM ∧
    specServerCommand readmeM = false :=
  ⟨rfl, rfl, rfl, by decide⟩
